import Mathlib

/-!
Shallow embedding of the comparer repository
(`app/services/shift_detector.py`, `app/services/sheets_reader.py`,
`app/services/comparator.py`, `app/models.py`).

Modelling conventions:
* Python `datetime` values used by the shift detector are represented by the
  integer number of seconds since an arbitrary epoch (`t : ℤ`); a calendar
  date is then the day number `t / 86400` and the hour of day is
  `(t % 86400) / 3600`.  The detector only ever uses date equality, the date
  successor and datetime differences, so day numbers model `datetime.date`
  faithfully there (the XLSX reader always builds
  `punch_datetime = combine(punch_date, punch_time)`, so the three punch
  fields are determined by the single timestamp).
* The comparator and the tabell reader need month and day-of-month fields,
  so they use a record `Date` with year, month and day and real calendar
  successor arithmetic.
* Python `float` values are modelled by `ℚ`; `round(x, 1)` is modelled by
  exact round-half-to-even on rationals (`roundTo1`).
-/

/-!
The rational operations `+`, `-`, `*`, `/` and decimal literals are
`@[irreducible]` in this toolchain, so the embedding spells every float
operation of the source through `Rat.divInt`, `Rat.num`, `Rat.den` and
integer arithmetic, which do evaluate inside the kernel; lemmas below
identify these spellings with the ordinary field operations of `ℚ`.
-/

/-- Round-half-to-even of a rational to an integer: the Python builtin
`round` with one argument, on exact values.  `q.num / q.den` is `⌊q⌋`
(`Rat.floor_def`) and `2 * r < den` compares the fractional part of `q`
with one half. -/
def pyRound (q : ℚ) : ℤ :=
  let f := q.num / (q.den : ℤ)
  let r := q.num - f * (q.den : ℤ)
  if 2 * r < (q.den : ℤ) then f
  else if 2 * r > (q.den : ℤ) then f + 1
  else if f % 2 = 0 then f else f + 1

/-- Python `round(x, 1)`: the inner `Rat.divInt (10 * q.num) q.den` is
`10 * q` and the outer one divides the rounded integer by ten again. -/
def roundTo1 (q : ℚ) : ℚ := Rat.divInt (pyRound (Rat.divInt (10 * q.num) (q.den : ℤ))) 10

/-- Python float addition, spelled on numerators and denominators so that
it evaluates in the kernel; `qAdd_eq` identifies it with `+`. -/
def qAdd (a b : ℚ) : ℚ := Rat.divInt (a.num * (b.den : ℤ) + b.num * (a.den : ℤ)) ((a.den : ℤ) * (b.den : ℤ))

/-- Python float subtraction; `qSub_eq` identifies it with `-`. -/
def qSub (a b : ℚ) : ℚ := Rat.divInt (a.num * (b.den : ℤ) - b.num * (a.den : ℤ)) ((a.den : ℤ) * (b.den : ℤ))


/-- `qAdd` is rational addition. -/
theorem qAdd_eq (a b : ℚ) : qAdd a b = a + b := by
  have ha : (a.den : ℚ) ≠ 0 := by exact_mod_cast a.den_nz
  have hb : (b.den : ℚ) ≠ 0 := by exact_mod_cast b.den_nz
  rw [qAdd, Rat.divInt_eq_div]
  push_cast
  conv_rhs => rw [← Rat.num_div_den a, ← Rat.num_div_den b]
  field_simp

/-- `qSub` is rational subtraction. -/
theorem qSub_eq (a b : ℚ) : qSub a b = a - b := by
  have ha : (a.den : ℚ) ≠ 0 := by exact_mod_cast a.den_nz
  have hb : (b.den : ℚ) ≠ 0 := by exact_mod_cast b.den_nz
  rw [qSub, Rat.divInt_eq_div]
  push_cast
  conv_rhs => rw [← Rat.num_div_den a, ← Rat.num_div_den b]
  field_simp
  ring

/-- The argument of `pyRound` inside `roundTo1` is `10 * q`. -/
theorem divInt_tenmul (q : ℚ) : Rat.divInt (10 * q.num) (q.den : ℤ) = 10 * q := by
  rw [Rat.divInt_eq_div]
  push_cast
  rw [mul_div_assoc, Rat.num_div_den]

/-- `roundTo1`, restated through ordinary field operations. -/
theorem roundTo1_eq (q : ℚ) : roundTo1 q = Rat.divInt (pyRound (10 * q)) 10 := by
  rw [roundTo1, divInt_tenmul]

/-- Rounding an integer changes nothing. -/
theorem pyRound_intCast (m : ℤ) : pyRound ((m : ℚ)) = m := by
  simp [pyRound, Rat.num_intCast, Rat.den_intCast]

/-- `pyRound` never exceeds an integer upper bound of its argument. -/
theorem pyRound_le_of_le {q : ℚ} {m : ℤ} (h : q ≤ (m : ℚ)) : pyRound q ≤ m := by
  have hfl : q.num / (q.den : ℤ) = ⌊q⌋ := by rw [Rat.floor_def]
  have hfm : ⌊q⌋ ≤ m := by
    have h2 := Int.floor_mono h
    simpa using h2
  have hlt : ¬ (2 * (q.num - q.num / (q.den : ℤ) * (q.den : ℤ)) < (q.den : ℤ)) → ⌊q⌋ < m := by
    intro hr
    rcases lt_or_eq_of_le hfm with h1 | h1
    · exact h1
    · exfalso
      have he : q = ((m : ℤ) : ℚ) := by
        refine le_antisymm h ?_
        rw [← h1]
        exact_mod_cast Int.floor_le q
      have hnum : q.num = m := by rw [he, Rat.num_intCast]
      have hden : q.den = 1 := by rw [he, Rat.den_intCast]
      rw [hnum, hden] at hr
      simp at hr
  simp only [pyRound]
  split_ifs with h1 h2 h3
  · rw [hfl]; exact hfm
  · have := hlt h1; omega
  · rw [hfl]; exact hfm
  · have := hlt h1; omega

/-- A one-decimal rational is a fixed point of `roundTo1`. -/
theorem roundTo1_divInt_ten (k : ℤ) : roundTo1 (Rat.divInt k 10) = Rat.divInt k 10 := by
  have h10 : Rat.divInt k 10 = (k : ℚ) / 10 := Rat.divInt_eq_div k 10
  have hmul : (10 : ℚ) * (Rat.divInt k 10) = (k : ℚ) := by
    rw [h10]; field_simp
  rw [roundTo1_eq, hmul, pyRound_intCast, h10]

/-- `roundTo1` respects one-decimal upper bounds. -/
theorem roundTo1_le_divInt {q : ℚ} {m : ℤ} (h : q ≤ Rat.divInt m 10) : roundTo1 q ≤ Rat.divInt m 10 := by
  have h10 : Rat.divInt m 10 = (m : ℚ) / 10 := Rat.divInt_eq_div m 10
  have hq : 10 * q ≤ (m : ℚ) := by
    rw [h10] at h
    linarith
  have hp := pyRound_le_of_le hq
  rw [roundTo1_eq, Rat.divInt_eq_div, h10]
  have hc : ((pyRound (10 * q) : ℤ) : ℚ) ≤ (m : ℚ) := by exact_mod_cast hp
  linarith

/-- `app/models.py`: `ShiftType`. -/
inductive ShiftType where
  | DAY
  | NIGHT
  | BROKEN
deriving DecidableEq, Repr

/-- The `.value` payload of the Python `ShiftType` enum. -/
def ShiftType.value : ShiftType → String
  | .DAY => "day"
  | .NIGHT => "night"
  | .BROKEN => "broken"

namespace ShiftDetector

/-- `app/models.py`: `PunchRecord`, with `punch_date`, `punch_time` and
`punch_datetime` collapsed into the single timestamp `t` in seconds. -/
structure PunchRecord where
  employee_id : String
  t : ℤ
deriving DecidableEq, Repr, Inhabited

/-- `p.punch_date`, as a day number. -/
def punchDay (t : ℤ) : ℤ := t / 86400

/-- `p.punch_datetime.hour`. -/
def punchHour (t : ℤ) : ℤ := t % 86400 / 3600

/-- `app/models.py`: `Shift` (dates as day numbers). -/
structure Shift where
  employee_id : String
  shift_type : ShiftType
  attributed_date : ℤ
  start_punch : ℤ
  end_punch : Option ℤ
  hours : ℚ
deriving DecidableEq, Repr

/-- Insertion of a punch after all punches with a smaller-or-equal
timestamp; folding it over a list is a stable sort, matching Python
`sorted(punches, key=lambda p: p.punch_datetime)`. -/
def insertSorted (p : PunchRecord) : List PunchRecord → List PunchRecord
  | [] => [p]
  | q :: qs => if q.t ≤ p.t then q :: insertSorted p qs else p :: q :: qs

/-- `sorted(punches, key=lambda p: p.punch_datetime)` (stable). -/
def sortPunches (l : List PunchRecord) : List PunchRecord :=
  l.foldl (fun acc p => insertSorted p acc) []

/-- Inner scan of Pass 1: starting just after `i`, skip used indices,
break at the first unused punch on a different date, and remember the
latest unused same-date punch with hour in `[14, 20]`. -/
def findDayEnd (ps : List PunchRecord) (used : Finset ℕ) (pd : ℤ) :
    List ℕ → Option ℕ → Option ℕ
  | [], best => best
  | j :: js, best =>
    if j ∈ used then findDayEnd ps used pd js best
    else
      let q := ps.getD j default
      if punchDay q.t ≠ pd then best
      else if 14 ≤ punchHour q.t ∧ punchHour q.t ≤ 20 then
        findDayEnd ps used pd js (some j)
      else findDayEnd ps used pd js best

/-- Pass 1 of `_detect_employee_shifts`: day shifts.  The index list is
`List.range ps.length`, mirroring `for i in range(n)` with the shared
`used` set threaded through. -/
def pass1 (emp : String) (ps : List PunchRecord) :
    List ℕ → Finset ℕ → List Shift × Finset ℕ
  | [], used => ([], used)
  | i :: rest, used =>
    if i ∈ used then pass1 emp ps rest used
    else
      let p := ps.getD i default
      if ¬ (4 ≤ punchHour p.t ∧ punchHour p.t ≤ 10) then pass1 emp ps rest used
      else
        match findDayEnd ps used (punchDay p.t) (List.range' (i+1) (ps.length - (i+1))) none with
        | none => pass1 emp ps rest used
        | some bj =>
          let q := ps.getD bj default
          let hrs : ℚ := Rat.divInt (q.t - p.t) 3600
          if Rat.divInt 25 2 < hrs then pass1 emp ps rest used
          else
            let used2 := (insert i (insert bj used)) ∪
              (Finset.Ioo i bj).filter (fun k => punchDay (ps.getD k default).t = punchDay p.t)
            let r := pass1 emp ps rest used2
            (⟨emp, .DAY, punchDay p.t, p.t, some q.t, roundTo1 hrs⟩ :: r.1, r.2)

/-- Inner scan of Pass 2: skip used indices, break at the first unused
punch strictly past the next date, and remember the latest unused punch
on the next date with hour at most 13. -/
def findNightEnd (ps : List PunchRecord) (used : Finset ℕ) (nd : ℤ) :
    List ℕ → Option ℕ → Option ℕ
  | [], best => best
  | j :: js, best =>
    if j ∈ used then findNightEnd ps used nd js best
    else
      let q := ps.getD j default
      if punchDay q.t > nd then best
      else if punchDay q.t = nd ∧ punchHour q.t ≤ 13 then
        findNightEnd ps used nd js (some j)
      else findNightEnd ps used nd js best

/-- Pass 2 of `_detect_employee_shifts`: overnight night shifts. -/
def pass2 (emp : String) (ps : List PunchRecord) :
    List ℕ → Finset ℕ → List Shift × Finset ℕ
  | [], used => ([], used)
  | i :: rest, used =>
    if i ∈ used then pass2 emp ps rest used
    else
      let p := ps.getD i default
      if ¬ (15 ≤ punchHour p.t ∧ punchHour p.t ≤ 23) then pass2 emp ps rest used
      else
        match findNightEnd ps used (punchDay p.t + 1) (List.range' (i+1) (ps.length - (i+1))) none with
        | none => pass2 emp ps rest used
        | some bj =>
          let q := ps.getD bj default
          let hrs : ℚ := Rat.divInt (q.t - p.t) 3600
          let used2 := (insert i (insert bj used)) ∪
            (Finset.Ioo i bj).filter (fun k =>
              punchDay (ps.getD k default).t = punchDay p.t ∨
              punchDay (ps.getD k default).t = punchDay p.t + 1)
          let r := pass2 emp ps rest used2
          (⟨emp, .NIGHT, punchDay p.t, p.t, some q.t, roundTo1 hrs⟩ :: r.1, r.2)

/-- Inner scan of Pass 3: skip used indices, break at the first unused
punch on a different date, and remember the latest unused same-date punch
with hour in `[5, 13]`. -/
def findP3End (ps : List PunchRecord) (used : Finset ℕ) (pd : ℤ) :
    List ℕ → Option ℕ → Option ℕ
  | [], best => best
  | j :: js, best =>
    if j ∈ used then findP3End ps used pd js best
    else
      let q := ps.getD j default
      if punchDay q.t ≠ pd then best
      else if 5 ≤ punchHour q.t ∧ punchHour q.t ≤ 13 then
        findP3End ps used pd js (some j)
      else findP3End ps used pd js best

/-- Pass 3 of `_detect_employee_shifts`: post-midnight night shifts,
attributed to the previous calendar date. -/
def pass3 (emp : String) (ps : List PunchRecord) :
    List ℕ → Finset ℕ → List Shift × Finset ℕ
  | [], used => ([], used)
  | i :: rest, used =>
    if i ∈ used then pass3 emp ps rest used
    else
      let p := ps.getD i default
      if ¬ (0 ≤ punchHour p.t ∧ punchHour p.t ≤ 4) then pass3 emp ps rest used
      else
        match findP3End ps used (punchDay p.t) (List.range' (i+1) (ps.length - (i+1))) none with
        | none => pass3 emp ps rest used
        | some bj =>
          let q := ps.getD bj default
          let hrs : ℚ := Rat.divInt (q.t - p.t) 3600
          let used2 := (insert i (insert bj used)) ∪
            (Finset.Ioo i bj).filter (fun k => punchDay (ps.getD k default).t = punchDay p.t)
          let r := pass3 emp ps rest used2
          (⟨emp, .NIGHT, punchDay p.t - 1, p.t, some q.t, roundTo1 hrs⟩ :: r.1, r.2)

/-- Pass 4 of `_detect_employee_shifts`: the remaining unmatched punches
become broken shifts. -/
def pass4 (emp : String) (ps : List PunchRecord) :
    List ℕ → Finset ℕ → List Shift
  | [], _ => []
  | i :: rest, used =>
    if i ∈ used then pass4 emp ps rest used
    else
      let p := ps.getD i default
      let ad := if 0 ≤ punchHour p.t ∧ punchHour p.t ≤ 4
        then punchDay p.t - 1 else punchDay p.t
      ⟨emp, .BROKEN, ad, p.t, none, 0⟩ :: pass4 emp ps rest used

/-- `_detect_employee_shifts`: the four passes in priority order on the
sorted punch list; the result list is the concatenation of the shifts
appended by each pass. -/
def detect_employee_shifts (emp : String) (punches : List PunchRecord) : List Shift :=
  let ps := sortPunches punches
  let idx := List.range ps.length
  let r1 := pass1 emp ps idx ∅
  let r2 := pass2 emp ps idx r1.2
  let r3 := pass3 emp ps idx r2.2
  r1.1 ++ r2.1 ++ r3.1 ++ pass4 emp ps idx r3.2

/-- The employee ids of a punch list in order of first occurrence
(the key order of the Python `defaultdict`). -/
def keysInOrder (punches : List PunchRecord) : List String :=
  punches.foldl (fun acc p => if p.employee_id ∈ acc then acc else acc ++ [p.employee_id]) []

/-- The `by_employee` grouping of `detect_all_shifts`. -/
def groupByEmployee (punches : List PunchRecord) : List (String × List PunchRecord) :=
  (keysInOrder punches).map
    (fun e => (e, punches.filter (fun p => decide (p.employee_id = e))))

/-- The per-employee loop of `detect_all_shifts`: range post-filter, then
split into valid and broken shifts; an employee with no valid shift is not
added to the mapping. -/
def detectAllGo (dfrom dto : ℤ) :
    List (String × List PunchRecord) → List (String × List Shift) × List Shift
  | [] => ([], [])
  | (e, eps) :: rest =>
    let shifts := detect_employee_shifts e eps
    let kept := shifts.filter
      (fun s => decide (dfrom ≤ s.attributed_date ∧ s.attributed_date ≤ dto))
    let valid := kept.filter (fun s => decide (s.shift_type ≠ ShiftType.BROKEN))
    let broken := kept.filter (fun s => decide (s.shift_type = ShiftType.BROKEN))
    let r := detectAllGo dfrom dto rest
    ((if valid.isEmpty then r.1 else (e, valid) :: r.1), broken ++ r.2)

/-- `detect_all_shifts` from `app/services/shift_detector.py`. -/
def detect_all_shifts (punches : List PunchRecord) (dfrom dto : ℤ) :
    List (String × List Shift) × List Shift :=
  detectAllGo dfrom dto (groupByEmployee punches)

def DayEndOk (ps : List PunchRecord) (pd : ℤ) (j : ℕ) : Prop :=
  punchDay (ps.getD j default).t = pd ∧
  14 ≤ punchHour (ps.getD j default).t ∧ punchHour (ps.getD j default).t ≤ 20

theorem findDayEnd_sound (ps : List PunchRecord) (used : Finset ℕ) (pd : ℤ) :
    ∀ (js : List ℕ) (best : Option ℕ) (j : ℕ),
      (∀ j0, best = some j0 → DayEndOk ps pd j0) →
      findDayEnd ps used pd js best = some j → DayEndOk ps pd j := by
  intro js
  induction js with
  | nil =>
    intro best j hbest h
    exact hbest j h
  | cons a as ih =>
    intro best j hbest h
    simp only [findDayEnd] at h
    split at h
    · exact ih best j hbest h
    · split at h
      · exact hbest j h
      · split at h
        · refine ih (some a) j ?_ h
          intro j0 hj0
          cases hj0
          next hdate hwin =>
            exact ⟨not_not.mp (by simpa using hdate), hwin.1, hwin.2⟩
        · exact ih best j hbest h

def DayShiftOk (emp : String) (s : Shift) : Prop :=
  s.employee_id = emp ∧ s.shift_type = ShiftType.DAY ∧
  ∃ b : ℤ, s.end_punch = some b ∧
    s.attributed_date = punchDay s.start_punch ∧
    punchDay b = punchDay s.start_punch ∧
    4 ≤ punchHour s.start_punch ∧ punchHour s.start_punch ≤ 10 ∧
    14 ≤ punchHour b ∧ punchHour b ≤ 20 ∧
    ¬ (Rat.divInt 25 2 < Rat.divInt (b - s.start_punch) 3600) ∧
    s.hours = roundTo1 (Rat.divInt (b - s.start_punch) 3600)

theorem pass1_sound (emp : String) (ps : List PunchRecord) :
    ∀ (idx : List ℕ) (used : Finset ℕ) (s : Shift),
      s ∈ (pass1 emp ps idx used).1 → DayShiftOk emp s := by
  intro idx
  induction idx with
  | nil =>
    intro used s hs
    simp [pass1] at hs
  | cons i rest ih =>
    intro used s hs
    simp only [pass1] at hs
    split at hs
    next hiused => exact ih used s hs
    next hiused =>
      split at hs
      next hhour => exact ih used s hs
      next hhour =>
        split at hs
        next hfind => exact ih used s hs
        next bj hfind =>
          split at hs
          next hguard => exact ih used s hs
          next hguard =>
            rcases List.mem_cons.mp hs with h | h
            · subst h
              have hhour2 := not_not.mp hhour
              have hend := findDayEnd_sound ps used (punchDay (ps.getD i default).t) _ none bj
                (fun j0 h0 => by cases h0) hfind
              exact ⟨rfl, rfl, (ps.getD bj default).t, rfl, rfl, hend.1,
                hhour2.1, hhour2.2, hend.2.1, hend.2.2, hguard, rfl⟩
            · exact ih _ s h

def NightEndOk (ps : List PunchRecord) (nd : ℤ) (j : ℕ) : Prop :=
  punchDay (ps.getD j default).t = nd ∧ punchHour (ps.getD j default).t ≤ 13

theorem findNightEnd_sound (ps : List PunchRecord) (used : Finset ℕ) (nd : ℤ) :
    ∀ (js : List ℕ) (best : Option ℕ) (j : ℕ),
      (∀ j0, best = some j0 → NightEndOk ps nd j0) →
      findNightEnd ps used nd js best = some j → NightEndOk ps nd j := by
  intro js
  induction js with
  | nil =>
    intro best j hbest h
    exact hbest j h
  | cons a as ih =>
    intro best j hbest h
    simp only [findNightEnd] at h
    split at h
    · exact ih best j hbest h
    · split at h
      · exact hbest j h
      · split at h
        · refine ih (some a) j ?_ h
          intro j0 hj0
          cases hj0
          next hpast hwin =>
            exact ⟨hwin.1, hwin.2⟩
        · exact ih best j hbest h

def P3EndOk (ps : List PunchRecord) (pd : ℤ) (j : ℕ) : Prop :=
  punchDay (ps.getD j default).t = pd ∧
  5 ≤ punchHour (ps.getD j default).t ∧ punchHour (ps.getD j default).t ≤ 13

theorem findP3End_sound (ps : List PunchRecord) (used : Finset ℕ) (pd : ℤ) :
    ∀ (js : List ℕ) (best : Option ℕ) (j : ℕ),
      (∀ j0, best = some j0 → P3EndOk ps pd j0) →
      findP3End ps used pd js best = some j → P3EndOk ps pd j := by
  intro js
  induction js with
  | nil =>
    intro best j hbest h
    exact hbest j h
  | cons a as ih =>
    intro best j hbest h
    simp only [findP3End] at h
    split at h
    · exact ih best j hbest h
    · split at h
      · exact hbest j h
      · split at h
        · refine ih (some a) j ?_ h
          intro j0 hj0
          cases hj0
          next hdate hwin =>
            exact ⟨not_not.mp (by simpa using hdate), hwin.1, hwin.2⟩
        · exact ih best j hbest h

def NightShiftOk2 (emp : String) (s : Shift) : Prop :=
  s.employee_id = emp ∧ s.shift_type = ShiftType.NIGHT ∧
  ∃ b : ℤ, s.end_punch = some b ∧
    s.attributed_date = punchDay s.start_punch ∧
    punchDay b = punchDay s.start_punch + 1 ∧
    15 ≤ punchHour s.start_punch ∧ punchHour s.start_punch ≤ 23 ∧
    punchHour b ≤ 13 ∧
    s.hours = roundTo1 (Rat.divInt (b - s.start_punch) 3600)

theorem pass2_sound (emp : String) (ps : List PunchRecord) :
    ∀ (idx : List ℕ) (used : Finset ℕ) (s : Shift),
      s ∈ (pass2 emp ps idx used).1 → NightShiftOk2 emp s := by
  intro idx
  induction idx with
  | nil =>
    intro used s hs
    simp [pass2] at hs
  | cons i rest ih =>
    intro used s hs
    simp only [pass2] at hs
    split at hs
    next hiused => exact ih used s hs
    next hiused =>
      split at hs
      next hhour => exact ih used s hs
      next hhour =>
        split at hs
        next hfind => exact ih used s hs
        next bj hfind =>
          rcases List.mem_cons.mp hs with h | h
          · subst h
            have hhour2 := not_not.mp hhour
            have hend := findNightEnd_sound ps used (punchDay (ps.getD i default).t + 1) _ none bj
              (fun j0 h0 => by cases h0) hfind
            exact ⟨rfl, rfl, (ps.getD bj default).t, rfl, rfl, hend.1,
              hhour2.1, hhour2.2, hend.2, rfl⟩
          · exact ih _ s h

def NightShiftOk3 (emp : String) (s : Shift) : Prop :=
  s.employee_id = emp ∧ s.shift_type = ShiftType.NIGHT ∧
  ∃ b : ℤ, s.end_punch = some b ∧
    s.attributed_date = punchDay s.start_punch - 1 ∧
    punchDay b = punchDay s.start_punch ∧
    0 ≤ punchHour s.start_punch ∧ punchHour s.start_punch ≤ 4 ∧
    5 ≤ punchHour b ∧ punchHour b ≤ 13 ∧
    s.hours = roundTo1 (Rat.divInt (b - s.start_punch) 3600)

theorem pass3_sound (emp : String) (ps : List PunchRecord) :
    ∀ (idx : List ℕ) (used : Finset ℕ) (s : Shift),
      s ∈ (pass3 emp ps idx used).1 → NightShiftOk3 emp s := by
  intro idx
  induction idx with
  | nil =>
    intro used s hs
    simp [pass3] at hs
  | cons i rest ih =>
    intro used s hs
    simp only [pass3] at hs
    split at hs
    next hiused => exact ih used s hs
    next hiused =>
      split at hs
      next hhour => exact ih used s hs
      next hhour =>
        split at hs
        next hfind => exact ih used s hs
        next bj hfind =>
          rcases List.mem_cons.mp hs with h | h
          · subst h
            have hhour2 := not_not.mp hhour
            have hend := findP3End_sound ps used (punchDay (ps.getD i default).t) _ none bj
              (fun j0 h0 => by cases h0) hfind
            exact ⟨rfl, rfl, (ps.getD bj default).t, rfl, rfl, hend.1,
              hhour2.1, hhour2.2, hend.2.1, hend.2.2, rfl⟩
          · exact ih _ s h

def BrokenOk (emp : String) (s : Shift) : Prop :=
  s.employee_id = emp ∧ s.shift_type = ShiftType.BROKEN ∧
  s.end_punch = none ∧ s.hours = 0

theorem pass4_sound (emp : String) (ps : List PunchRecord) :
    ∀ (idx : List ℕ) (used : Finset ℕ) (s : Shift),
      s ∈ pass4 emp ps idx used → BrokenOk emp s := by
  intro idx
  induction idx with
  | nil =>
    intro used s hs
    simp [pass4] at hs
  | cons i rest ih =>
    intro used s hs
    simp only [pass4] at hs
    split at hs
    · exact ih used s hs
    · rcases List.mem_cons.mp hs with h | h
      · subst h
        exact ⟨rfl, rfl, rfl, rfl⟩
      · exact ih used s h

theorem detect_employee_shifts_sound (emp : String) (punches : List PunchRecord) :
    ∀ s ∈ detect_employee_shifts emp punches,
      DayShiftOk emp s ∨ NightShiftOk2 emp s ∨ NightShiftOk3 emp s ∨ BrokenOk emp s := by
  intro s hs
  simp only [detect_employee_shifts, List.mem_append] at hs
  rcases hs with ((h | h) | h) | h
  · exact Or.inl (pass1_sound emp _ _ _ s h)
  · exact Or.inr (Or.inl (pass2_sound emp _ _ _ s h))
  · exact Or.inr (Or.inr (Or.inl (pass3_sound emp _ _ _ s h)))
  · exact Or.inr (Or.inr (Or.inr (pass4_sound emp _ _ _ s h)))

theorem span_day {a b : ℤ} (hd : punchDay b = punchDay a)
    (ha : punchHour a ≤ 10) (hb : 14 ≤ punchHour b) : a ≤ b ∧ b - a < 86400 := by
  simp only [punchDay, punchHour] at *
  omega

theorem span_night2 {a b : ℤ} (hd : punchDay b = punchDay a + 1)
    (ha : 15 ≤ punchHour a) (hb : punchHour b ≤ 13) : a ≤ b ∧ b - a < 86400 := by
  simp only [punchDay, punchHour] at *
  omega

theorem span_night3 {a b : ℤ} (hd : punchDay b = punchDay a)
    (ha : punchHour a ≤ 4) (hb : 5 ≤ punchHour b) : a ≤ b ∧ b - a < 86400 := by
  simp only [punchDay, punchHour] at *
  omega


theorem day_hours_le {x : ℚ} (hguard : ¬ (Rat.divInt 25 2 < x)) :
    roundTo1 x ≤ Rat.divInt 25 2 := by
  have h1 : x ≤ Rat.divInt 125 10 := by
    have h0 := not_lt.mp hguard
    calc x ≤ Rat.divInt 25 2 := h0
      _ = Rat.divInt 125 10 := by decide
  calc roundTo1 x ≤ Rat.divInt 125 10 := roundTo1_le_divInt h1
    _ = Rat.divInt 25 2 := by decide

theorem detectAllGo_fst (dfrom dto : ℤ) :
    ∀ (groups : List (String × List PunchRecord)) (pr : String × List Shift),
      pr ∈ (detectAllGo dfrom dto groups).1 →
      pr.2 ≠ [] ∧
      ∃ g, g ∈ groups ∧ pr.1 = g.1 ∧
        pr.2 = ((detect_employee_shifts g.1 g.2).filter
            (fun s => decide (dfrom ≤ s.attributed_date ∧ s.attributed_date ≤ dto))).filter
          (fun s => decide (s.shift_type ≠ ShiftType.BROKEN)) := by
  intro groups
  induction groups with
  | nil =>
    intro pr h
    simp [detectAllGo] at h
  | cons g rest ih =>
    obtain ⟨e, eps⟩ := g
    intro pr h
    simp only [detectAllGo] at h
    split at h
    next hemp =>
      obtain ⟨hne, g', hg', h1, h2⟩ := ih pr h
      exact ⟨hne, g', List.mem_cons_of_mem _ hg', h1, h2⟩
    next hemp =>
      rcases List.mem_cons.mp h with h0 | h0
      · subst h0
        refine ⟨?_, (e, eps), List.mem_cons_self _ _, rfl, rfl⟩
        simpa [List.isEmpty_iff] using hemp
      · obtain ⟨hne, g', hg', h1, h2⟩ := ih pr h0
        exact ⟨hne, g', List.mem_cons_of_mem _ hg', h1, h2⟩

theorem detectAllGo_snd (dfrom dto : ℤ) :
    ∀ (groups : List (String × List PunchRecord)) (s : Shift),
      s ∈ (detectAllGo dfrom dto groups).2 →
      ∃ g, g ∈ groups ∧
        s ∈ ((detect_employee_shifts g.1 g.2).filter
            (fun s => decide (dfrom ≤ s.attributed_date ∧ s.attributed_date ≤ dto))).filter
          (fun s => decide (s.shift_type = ShiftType.BROKEN)) := by
  intro groups
  induction groups with
  | nil =>
    intro s h
    simp [detectAllGo] at h
  | cons g rest ih =>
    obtain ⟨e, eps⟩ := g
    intro s h
    simp only [detectAllGo] at h
    rcases List.mem_append.mp h with h0 | h0
    · exact ⟨(e, eps), List.mem_cons_self _ _, h0⟩
    · obtain ⟨g', hg', h2⟩ := ih s h0
      exact ⟨g', List.mem_cons_of_mem _ hg', h2⟩

theorem groupByEmployee_mem {punches : List PunchRecord} {g : String × List PunchRecord}
    (hg : g ∈ groupByEmployee punches) :
    g.2 = punches.filter (fun p => decide (p.employee_id = g.1)) := by
  simp only [groupByEmployee, List.mem_map] at hg
  obtain ⟨e, he, rfl⟩ := hg
  rfl

/-- Claim C5: no shift whose attributed date lies outside the inclusive
range survives the range post-filter, in either component of the result of
`detect_all_shifts`. -/
theorem c5_range_postfilter (punches : List PunchRecord) (dfrom dto : ℤ) :
    (∀ pr ∈ (detect_all_shifts punches dfrom dto).1, ∀ s ∈ pr.2,
        dfrom ≤ s.attributed_date ∧ s.attributed_date ≤ dto) ∧
    (∀ s ∈ (detect_all_shifts punches dfrom dto).2,
        dfrom ≤ s.attributed_date ∧ s.attributed_date ≤ dto) := by
  constructor
  · intro pr hpr s hs
    obtain ⟨-, g, -, -, h2⟩ := detectAllGo_fst dfrom dto _ pr hpr
    rw [h2] at hs
    have h4 := (List.mem_filter.mp (List.mem_filter.mp hs).1).2
    simpa using h4
  · intro s hs
    obtain ⟨g, -, h2⟩ := detectAllGo_snd dfrom dto _ s hs
    have h4 := (List.mem_filter.mp (List.mem_filter.mp h2).1).2
    simpa using h4

/-- Claim C6: every day shift in the output of `detect_all_shifts` starts
and ends on its attributed calendar date and lasts at most 12.5 hours
(`Rat.divInt 25 2`). -/
theorem c6_day_shift_invariant (punches : List PunchRecord) (dfrom dto : ℤ) :
    ∀ pr ∈ (detect_all_shifts punches dfrom dto).1, ∀ s ∈ pr.2,
      s.shift_type = ShiftType.DAY →
      ∃ b : ℤ, s.end_punch = some b ∧
        punchDay s.start_punch = s.attributed_date ∧
        punchDay b = s.attributed_date ∧
        s.hours ≤ Rat.divInt 25 2 := by
  intro pr hpr s hs hday
  obtain ⟨-, g, -, -, h2⟩ := detectAllGo_fst dfrom dto _ pr hpr
  rw [h2] at hs
  have hsm := (List.mem_filter.mp (List.mem_filter.mp hs).1).1
  rcases detect_employee_shifts_sound g.1 g.2 s hsm with h | h | h | h
  · obtain ⟨-, -, b, hb, hattr, hbd, -, -, -, -, hguard, hhours⟩ := h
    refine ⟨b, hb, hattr.symm, by rw [hattr]; exact hbd, ?_⟩
    rw [hhours]
    exact day_hours_le hguard
  · exact absurd (hday.symm.trans h.2.1) (by decide)
  · exact absurd (hday.symm.trans h.2.1) (by decide)
  · exact absurd (hday.symm.trans h.2.1) (by decide)

/-- Claim C10: every shift in `shifts_by_employee` is non-broken, has an
end punch at or after its start punch, spans strictly less than 24 hours,
day shifts last at most 12.5 hours, and night shifts either run from an
evening start (hour at least 15) to the next calendar date with end hour
at most 13, or start and end on the same calendar date with end hour at
most 13; the second component contains only broken shifts. -/
theorem c10_shift_shape (punches : List PunchRecord) (dfrom dto : ℤ) :
    (∀ pr ∈ (detect_all_shifts punches dfrom dto).1, ∀ s ∈ pr.2,
      s.shift_type ≠ ShiftType.BROKEN ∧
      ∃ b : ℤ, s.end_punch = some b ∧ s.start_punch ≤ b ∧ b - s.start_punch < 86400 ∧
        (s.shift_type = ShiftType.DAY → s.hours ≤ Rat.divInt 25 2) ∧
        (s.shift_type = ShiftType.NIGHT →
          (punchDay b = punchDay s.start_punch + 1 ∧ 15 ≤ punchHour s.start_punch ∧
            punchHour b ≤ 13) ∨
          (punchDay b = punchDay s.start_punch ∧ punchHour b ≤ 13))) ∧
    (∀ s ∈ (detect_all_shifts punches dfrom dto).2, s.shift_type = ShiftType.BROKEN) := by
  constructor
  · intro pr hpr s hs
    obtain ⟨-, g, -, -, h2⟩ := detectAllGo_fst dfrom dto _ pr hpr
    rw [h2] at hs
    have hnb : s.shift_type ≠ ShiftType.BROKEN := by
      have h3 := (List.mem_filter.mp hs).2
      simpa using h3
    refine ⟨hnb, ?_⟩
    have hsm := (List.mem_filter.mp (List.mem_filter.mp hs).1).1
    rcases detect_employee_shifts_sound g.1 g.2 s hsm with h | h | h | h
    · obtain ⟨-, hty, b, hb, hattr, hbd, hs4, hs10, hb14, hb20, hguard, hhours⟩ := h
      have hspan := span_day hbd hs10 hb14
      refine ⟨b, hb, hspan.1, hspan.2, ?_, ?_⟩
      · intro _
        rw [hhours]
        exact day_hours_le hguard
      · intro hnight
        exact absurd (hty.symm.trans hnight) (by decide)
    · obtain ⟨-, hty, b, hb, hattr, hbd, h15, h23, h13, hhours⟩ := h
      have hspan := span_night2 hbd h15 h13
      refine ⟨b, hb, hspan.1, hspan.2, ?_, fun _ => Or.inl ⟨hbd, h15, h13⟩⟩
      intro hday
      exact absurd (hty.symm.trans hday) (by decide)
    · obtain ⟨-, hty, b, hb, hattr, hbd, h0, h4, h5, h13, hhours⟩ := h
      have hspan := span_night3 hbd h4 h5
      refine ⟨b, hb, hspan.1, hspan.2, ?_, fun _ => Or.inr ⟨hbd, h13⟩⟩
      intro hday
      exact absurd (hty.symm.trans hday) (by decide)
    · exact absurd h.2.1 hnb
  · intro s hs
    obtain ⟨g, -, h2⟩ := detectAllGo_snd dfrom dto _ s hs
    have h3 := (List.mem_filter.mp h2).2
    simpa using h3

/-- Claim C9: the `shifts_by_employee` mapping never holds an empty shift
list, and an employee all of whose in-range shifts are broken does not
appear among its keys. -/
theorem c9_no_empty_employee (punches : List PunchRecord) (dfrom dto : ℤ) :
    (∀ pr ∈ (detect_all_shifts punches dfrom dto).1, pr.2 ≠ []) ∧
    (∀ e : String,
      (∀ s ∈ detect_employee_shifts e (punches.filter (fun p => decide (p.employee_id = e))),
        dfrom ≤ s.attributed_date ∧ s.attributed_date ≤ dto → s.shift_type = ShiftType.BROKEN) →
      e ∉ (detect_all_shifts punches dfrom dto).1.map Prod.fst) := by
  constructor
  · intro pr hpr
    exact (detectAllGo_fst dfrom dto _ pr hpr).1
  · intro e hall hmem
    obtain ⟨pr, hpr, hpre⟩ := List.mem_map.mp hmem
    obtain ⟨hne, g, hg, h1, h2⟩ := detectAllGo_fst dfrom dto _ pr hpr
    obtain ⟨g1, g2⟩ := g
    have hg2 := groupByEmployee_mem hg
    simp only at hg2 h1
    have he : g1 = e := by rw [← hpre, h1]
    subst he
    obtain ⟨s, hsmem⟩ := List.exists_mem_of_ne_nil _ hne
    rw [h2] at hsmem
    have hinR := (List.mem_filter.mp (List.mem_filter.mp hsmem).1).2
    have hnb := (List.mem_filter.mp hsmem).2
    have hsm := (List.mem_filter.mp (List.mem_filter.mp hsmem).1).1
    rw [hg2] at hsm
    have hbroken := hall s hsm (by simpa using hinR)
    exact absurd hbroken (by simpa using hnb)

/-- The C1 scenario: employee `E1`, punches 2025-03-10 06:00, 16:00,
17:00 and 2025-03-11 05:00 (day 20157 is 2025-03-10 counted from
1970-01-01; timestamps are seconds). -/
def c1_punches : List PunchRecord :=
  [⟨"E1", 20157 * 86400 + 6 * 3600⟩, ⟨"E1", 20157 * 86400 + 16 * 3600⟩,
   ⟨"E1", 20157 * 86400 + 17 * 3600⟩, ⟨"E1", 20158 * 86400 + 5 * 3600⟩]

/-- The day shift the code actually produces on the C1 scenario:
06:00 to 17:00 on 2025-03-10, 11.0 hours. -/
def c1_day_shift : Shift :=
  ⟨"E1", ShiftType.DAY, 20157, 20157 * 86400 + 6 * 3600,
   some (20157 * 86400 + 17 * 3600), 11⟩

/-- The broken shift the code actually produces on the C1 scenario:
the unpaired 2025-03-11 05:00 punch. -/
def c1_broken_shift : Shift :=
  ⟨"E1", ShiftType.BROKEN, 20158, 20158 * 86400 + 5 * 3600, none, 0⟩

/-- Claim C1 counterexample: on the C1 punches the detector does produce
a broken shift, contradicting the claimed `no broken shifts`. -/
theorem c1_claim_false :
    (detect_all_shifts c1_punches 20157 20158).2 ≠ [] := by decide

/-- Claim C1 as amended: the detector pairs 06:00 with 17:00 (the latest
same-date end punch with hour in 14..20), an 11.0-hour day shift that the
12.5-hour guard does not reject, swallows the 16:00 punch as an
intermediate, and emits the 2025-03-11 05:00 punch as a broken shift. -/
theorem c1_actual_output :
    detect_all_shifts c1_punches 20157 20158 =
      ([("E1", [c1_day_shift])], [c1_broken_shift]) := by decide

/-- Witness for C5 at the C1 scenario day shift. -/
theorem c5_range_postfilter_witness :
    20157 ≤ c1_day_shift.attributed_date ∧ c1_day_shift.attributed_date ≤ 20158 :=
  (c5_range_postfilter c1_punches 20157 20158).1 ("E1", [c1_day_shift]) (by decide)
    c1_day_shift (by decide)

/-- Witness for C6 at the C1 scenario day shift. -/
theorem c6_day_shift_invariant_witness :
    ∃ b : ℤ, c1_day_shift.end_punch = some b ∧
      punchDay c1_day_shift.start_punch = c1_day_shift.attributed_date ∧
      punchDay b = c1_day_shift.attributed_date ∧
      c1_day_shift.hours ≤ Rat.divInt 25 2 :=
  c6_day_shift_invariant c1_punches 20157 20158 ("E1", [c1_day_shift]) (by decide)
    c1_day_shift (by decide) (by decide)

/-- Witness for C10 at the C1 scenario day shift. -/
theorem c10_shift_shape_witness :
    c1_day_shift.shift_type ≠ ShiftType.BROKEN ∧
    ∃ b : ℤ, c1_day_shift.end_punch = some b ∧ c1_day_shift.start_punch ≤ b ∧
      b - c1_day_shift.start_punch < 86400 ∧
      (c1_day_shift.shift_type = ShiftType.DAY → c1_day_shift.hours ≤ Rat.divInt 25 2) ∧
      (c1_day_shift.shift_type = ShiftType.NIGHT →
        (punchDay b = punchDay c1_day_shift.start_punch + 1 ∧
          15 ≤ punchHour c1_day_shift.start_punch ∧ punchHour b ≤ 13) ∨
        (punchDay b = punchDay c1_day_shift.start_punch ∧ punchHour b ≤ 13)) :=
  (c10_shift_shape c1_punches 20157 20158).1 ("E1", [c1_day_shift]) (by decide)
    c1_day_shift (by decide)

/-- A punch list whose only employee `B` has a single (hence broken)
punch, used as the C9 witness input. -/
def c9_punches : List PunchRecord := [⟨"B", 20157 * 86400 + 8 * 3600⟩]

/-- Witness for C9: employee `B`, all of whose shifts are broken, is not
a key of `shifts_by_employee`. -/
theorem c9_no_empty_employee_witness :
    "B" ∉ (detect_all_shifts c9_punches 20157 20157).1.map Prod.fst :=
  (c9_no_empty_employee c9_punches 20157 20157).2 "B" (by decide)

end ShiftDetector

/-- A calendar date (`datetime.date`): year, month, day.  The tabell
reader and the comparator need the month and day-of-month fields, so here
dates are not day numbers. -/
structure Date where
  y : ℤ
  m : ℕ
  d : ℕ
deriving DecidableEq, Repr

/-- Python `date` comparison `a <= b` (lexicographic). -/
def dateLe (a b : Date) : Prop :=
  a.y < b.y ∨ (a.y = b.y ∧ (a.m < b.m ∨ (a.m = b.m ∧ a.d ≤ b.d)))

instance (a b : Date) : Decidable (dateLe a b) := by
  unfold dateLe
  infer_instance

/-- Python `date` comparison `a < b` (lexicographic). -/
def dateLt (a b : Date) : Prop :=
  a.y < b.y ∨ (a.y = b.y ∧ (a.m < b.m ∨ (a.m = b.m ∧ a.d < b.d)))

instance (a b : Date) : Decidable (dateLt a b) := by
  unfold dateLt
  infer_instance

/-- Python `str.strip()` (on ASCII whitespace). -/
def pyStrip (s : String) : String :=
  String.mk (((s.data.dropWhile Char.isWhitespace).reverse.dropWhile Char.isWhitespace).reverse)

/-- Python `str.lower()`. -/
def pyLower (s : String) : String := String.mk (s.data.map Char.toLower)

/-- Python `str.capitalize()`. -/
def pyCapitalize (s : String) : String :=
  match s.data with
  | [] => ""
  | c :: r => String.mk (c.toUpper :: r.map Char.toLower)

/-- `app/models.py`: `TabellEntry`; `daily_hours` is the day-number-to-
hours mapping, as an association list in insertion order. -/
structure TabellEntry where
  employee_id : String
  name : String
  job_title : String
  company : String
  month : String
  daily_hours : List (ℕ × ℚ)
  project : String
deriving DecidableEq, Repr

namespace SheetsReader

/-- Column indices of `app/services/sheets_reader.py`. -/
def COL_EMPLOYEE_ID : ℕ := 0

def COL_NAME : ℕ := 1

def COL_JOB_TITLE : ℕ := 2

def COL_COMPANY : ℕ := 3

def COL_DAYS_START : ℕ := 10

def COL_DAYS_END : ℕ := 40

def COL_MONTH : ℕ := 118

def DATA_START_ROW : ℕ := 2

/-- `MONTH_MAP` of the reader (lower-case English month names). -/
def MONTH_MAP (s : String) : Option ℕ :=
  if s = "january" then some 1
  else if s = "february" then some 2
  else if s = "march" then some 3
  else if s = "april" then some 4
  else if s = "may" then some 5
  else if s = "june" then some 6
  else if s = "july" then some 7
  else if s = "august" then some 8
  else if s = "september" then some 9
  else if s = "october" then some 10
  else if s = "november" then some 11
  else if s = "december" then some 12
  else none

/-- Digit run to a natural number. -/
def digitsVal (cs : List Char) : ℕ := cs.foldl (fun a c => 10 * a + (c.toNat - 48)) 0

/-- Python `float(s)` on the decimal forms the tabell can contain
(optional sign, digits with at most one dot, optional exponent); `none`
when the parse fails. -/
def parseFloatQ (s : String) : Option ℚ :=
  let cs := (pyStrip s).data
  let sr :=
    match cs with
    | '+' :: r => (false, r)
    | '-' :: r => (true, r)
    | r => (false, r)
  let neg := sr.1
  let cs1 := sr.2
  let ip := cs1.takeWhile Char.isDigit
  let cs2 := cs1.dropWhile Char.isDigit
  let fr :=
    match cs2 with
    | '.' :: r => (r.takeWhile Char.isDigit, r.dropWhile Char.isDigit)
    | r => ([], r)
  let fp := fr.1
  let cs3 := fr.2
  if ip.isEmpty ∧ fp.isEmpty then none
  else
    let base : ℤ := (digitsVal ip : ℤ) * (10 : ℤ) ^ fp.length + (digitsVal fp : ℤ)
    let signed := if neg then -base else base
    match cs3 with
    | [] => some (Rat.divInt signed ((10 : ℤ) ^ fp.length))
    | 'e' :: r | 'E' :: r =>
      let er :=
        match r with
        | '+' :: r2 => (false, r2)
        | '-' :: r2 => (true, r2)
        | r2 => (false, r2)
      let ed := er.2.takeWhile Char.isDigit
      let r2 := er.2.dropWhile Char.isDigit
      if ed.isEmpty ∨ ¬ r2.isEmpty then none
      else if er.1 then some (Rat.divInt signed ((10 : ℤ) ^ fp.length * (10 : ℤ) ^ digitsVal ed))
      else some (Rat.divInt (signed * (10 : ℤ) ^ digitsVal ed) ((10 : ℤ) ^ fp.length))
    | _ => none

/-- `parse_hours` from `app/services/sheets_reader.py`. -/
def parse_hours (cell_value : String) : ℚ :=
  let val := pyStrip cell_value
  if val = "" ∨ val = "-" then 0
  else
    let val2 := String.mk ((val.data.reverse.dropWhile (fun c => c = '(')).reverse)
    let val3 := String.mk (val2.data.map (fun c => if c = ',' then '.' else c))
    match parseFloatQ val3 with
    | some q => q
    | none => 0

/-- The spec rules for the hour-cell parser (section 4.1), written out
step by step for comparison with `parse_hours`. -/
def parse_hours_spec (cell : String) : ℚ :=
  let s1 := pyStrip cell
  if s1 = "" then 0
  else if s1 = "-" then 0
  else
    let s2 := String.mk ((s1.data.reverse.dropWhile (fun c => c = '(')).reverse)
    let s3 := String.mk (s2.data.map (fun c => if c = ',' then '.' else c))
    (parseFloatQ s3).getD 0

/-- The scan of `_detect_project_col` over the header row. -/
def findProjectIdx : ℕ → List String → Option ℕ
  | _, [] => none
  | i, cell :: rest =>
    if cell ≠ "" ∧
        pyStrip (String.mk ((pyLower (pyStrip cell)).data.map
          (fun c => if c = '\n' then ' ' else c))) = "project" then
      some i
    else findProjectIdx (i + 1) rest

/-- `_detect_project_col`: search row 1 for a header that is exactly
`project` after normalisation. -/
def detect_project_col (rows : List (List String)) : Option ℕ :=
  if rows.length < 2 then none
  else findProjectIdx 0 (rows.getD 1 [])

/-- `re.sub(r'^ТН', '', raw_id, flags=re.IGNORECASE)`: strip one leading
Cyrillic `ТН` prefix, case-insensitively. -/
def stripTN (s : String) : String :=
  match s.data with
  | c1 :: c2 :: rest =>
    if (c1 = 'Т' ∨ c1 = 'т') ∧ (c2 = 'Н' ∨ c2 = 'н') then String.mk rest else s
  | _ => s

/-- The needed-months `while` loop of `fetch_tabell`.  The loop adds the
month of `cur`, stops after December or when the first of the next month
passes `date_to`, and otherwise advances to the first of the next month;
the fuel argument (13 at the call site) bounds the at most 13 iterations
the loop can make, so the translation is exact. -/
def neededLoop (dto : Date) : ℕ → Date → Finset ℕ
  | 0, _ => ∅
  | fuel + 1, cur =>
    if dateLe cur dto then
      if cur.m = 12 then {cur.m}
      else
        let nmf : Date := ⟨cur.y, cur.m + 1, 1⟩
        if dateLt dto nmf then {cur.m}
        else insert cur.m (neededLoop dto fuel nmf)
    else ∅

/-- The month filter set of `fetch_tabell`: the loop months plus the
months of the two endpoints. -/
def neededMonths (date_from date_to : Date) : Finset ℕ :=
  insert date_from.m (insert date_to.m (neededLoop date_to 13 date_from))

/-- Modelled from the spec (section 4.2 filtering): the set of month
numbers of all calendar months that `[date_from, date_to]` intersects,
walking (year, month) pairs from the start month to the end month. -/
def coveredLoop (ty : ℤ) (tm : ℕ) : ℕ → ℤ → ℕ → Finset ℕ
  | 0, _, _ => ∅
  | fuel + 1, y, m =>
    if ty < y ∨ (ty = y ∧ tm < m) then ∅
    else if m = 12 then insert 12 (coveredLoop ty tm fuel (y + 1) 1)
    else insert m (coveredLoop ty tm fuel y (m + 1))

/-- Modelled from the spec: `compute the set of month numbers covered by
[date_from, date_to] inclusive`. -/
def coveredMonths (date_from date_to : Date) : Finset ℕ :=
  coveredLoop date_to.y date_to.m (12 * ((date_to.y - date_from.y).toNat + 2))
    date_from.y date_from.m

/-- The body of the row loop of `fetch_tabell`; `none` is a `continue`. -/
def rowToEntry (project_col : Option ℕ) (needed : Finset ℕ) (row : List String) :
    Option TabellEntry :=
  if row.length ≤ COL_MONTH then none
  else
    let raw_id := pyStrip (row.getD COL_EMPLOYEE_ID "")
    if raw_id = "" then none
    else
      let employee_id := pyStrip (stripTN raw_id)
      if employee_id = "" then none
      else
        let month_str := pyLower (pyStrip (row.getD COL_MONTH ""))
        match MONTH_MAP month_str with
        | none => none
        | some month_num =>
          if month_num ∉ needed then none
          else
            let name := if COL_NAME < row.length then pyStrip (row.getD COL_NAME "") else ""
            let job_title :=
              if COL_JOB_TITLE < row.length then pyStrip (row.getD COL_JOB_TITLE "") else ""
            let company :=
              if COL_COMPANY < row.length then pyStrip (row.getD COL_COMPANY "") else ""
            let project :=
              match project_col with
              | some pc => if pc < row.length then pyStrip (row.getD pc "") else ""
              | none => ""
            let daily_hours :=
              (List.range' COL_DAYS_START (min (COL_DAYS_END + 1) row.length - COL_DAYS_START)).map
                (fun col_idx => (col_idx - COL_DAYS_START + 1,
                  parse_hours (if row.getD col_idx "" ≠ "" then pyStrip (row.getD col_idx "") else "")))
            some ⟨employee_id, name, job_title, company, pyCapitalize month_str, daily_hours, project⟩

/-- `fetch_tabell` from `app/services/sheets_reader.py`, on decoded rows
(the HTTPS CSV transport is out of scope; the reader accepts decoded row
arrays). -/
def fetch_tabell (rows : List (List String)) (date_from date_to : Date) : List TabellEntry :=
  let project_col := detect_project_col rows
  if rows.length < DATA_START_ROW + 1 then []
  else
    let needed := neededMonths date_from date_to
    (rows.drop DATA_START_ROW).filterMap (rowToEntry project_col needed)

/-- Modelled from the spec (section 4.2): the claimed fixed layout —
header in row 0, data from row 1, employee id in column 0 (with the `ТН`
prefix stripped), name, job title and company in columns 1..3, day cells
in columns 4..34, month name in column 35 and project in column 36 — with
the spec month filter. -/
def fetch_tabell_spec_layout (rows : List (List String)) (date_from date_to : Date) :
    List TabellEntry :=
  (rows.drop 1).filterMap (fun row =>
    let employee_id := pyStrip (stripTN (pyStrip (row.getD 0 "")))
    if employee_id = "" then none
    else
      let month_str := pyLower (pyStrip (row.getD 35 ""))
      match MONTH_MAP month_str with
      | none => none
      | some month_num =>
        if month_num ∉ coveredMonths date_from date_to then none
        else
          some ⟨employee_id, pyStrip (row.getD 1 ""), pyStrip (row.getD 2 ""),
            pyStrip (row.getD 3 ""), pyCapitalize month_str,
            (List.range' 4 (min 35 row.length - 4)).map
              (fun c => (c - 4 + 1, parse_hours (row.getD c ""))),
            pyStrip (row.getD 36 "")⟩)

end SheetsReader

namespace SheetsReader

/-- Claim C8: `parse_hours` agrees with the five spec rules on every
string, and on the concrete examples named by the claim. -/
theorem c8_parse_hours_rules :
    (∀ s : String, parse_hours s = parse_hours_spec s) ∧
    parse_hours "10(" = 10 ∧
    parse_hours "7,5" = Rat.divInt 15 2 ∧
    parse_hours "DOF" = 0 ∧
    parse_hours "" = 0 ∧
    parse_hours " - " = 0 := by
  refine ⟨?_, by decide, by decide, by decide, by decide, by decide⟩
  intro s
  by_cases h1 : pyStrip s = ""
  · simp [parse_hours, parse_hours_spec, h1]
  · by_cases h2 : pyStrip s = "-"
    · simp [parse_hours, parse_hours_spec, h1, h2]
    · simp only [parse_hours, parse_hours_spec, h1, h2, if_false, or_self, or_false, false_or]
      cases hpf : parseFloatQ (String.mk (((pyStrip s).data.reverse.dropWhile
          (fun c => c = '(')).reverse.map (fun c => if c = ',' then '.' else c))) <;>
        simp [hpf]

/-- A data row laid out as the claim describes: employee id in column 0,
name, job title, company in 1..3, day hours in 4..34, month in 35,
project in 36 (37 columns in all). -/
def specLayoutRow : List String :=
  ["ТН123", "Ivan", "Welder", "ACME"] ++ List.replicate 31 "8" ++ ["March", "P1"]

/-- Three rows in the layout the claim describes. -/
def c2_rows : List (List String) := [List.replicate 37 "h", specLayoutRow, specLayoutRow]

set_option maxRecDepth 8000 in
/-- Claim C2 counterexample: on rows laid out exactly as the claim says,
`fetch_tabell` returns nothing (its data rows start at index 2 and its
month column is 118, so every row is skipped), while the reader the claim
describes returns entries. -/
theorem c2_claim_false :
    fetch_tabell c2_rows ⟨2025, 3, 1⟩ ⟨2025, 3, 31⟩ = [] ∧
    fetch_tabell_spec_layout c2_rows ⟨2025, 3, 1⟩ ⟨2025, 3, 31⟩ ≠ [] := by decide

/-- Row 1 of the actual layout: the real header row, holding the header
`Project` at index 41. -/
def actualHeaderRow : List String :=
  List.replicate 41 "" ++ ["Project"] ++ List.replicate 77 ""

/-- A data row in the layout the code actually reads: employee id (with
`ТН` prefix) at 0, name, job title, company at 1..3, day-1 and day-2
hours at columns 10 and 11, the project value at the detected column 41,
and the month name at column 118 (119 columns in all). -/
def actualDataRow : List String :=
  ["ТН77", "Anna", "Fitter", "ACME"] ++ List.replicate 6 "" ++ ["8", "7,5"] ++
    List.replicate 29 "" ++ ["P2"] ++ List.replicate 76 "" ++ ["March"]

/-- Rows in the layout the code actually reads: two header rows, then
data from row index 2. -/
def c2_actual_rows : List (List String) :=
  [List.replicate 119 "x", actualHeaderRow, actualDataRow]

set_option maxRecDepth 8000 in
/-- Claim C2 as amended: `fetch_tabell` discards rows 0 and 1 and reads
data rows from index 2, with employee id at column 0 (`ТН` stripped),
name, job title and company at columns 1..3, the day-1..day-31 hour
cells at columns 10..40, the English month name at column 118, and the
project at the column whose row-1 header is exactly `project`
(case-insensitively) — here column 41. -/
theorem c2_actual_layout :
    fetch_tabell c2_actual_rows ⟨2025, 3, 1⟩ ⟨2025, 3, 31⟩ =
      [⟨"77", "Anna", "Fitter", "ACME", "March",
        (List.range' 1 31).map
          (fun d => (d, if d = 1 then (8 : ℚ) else if d = 2 then Rat.divInt 15 2 else 0)),
        "P2"⟩] ∧
    detect_project_col c2_actual_rows = some 41 := by decide

/-- A data row (actual layout) whose month is January. -/
def janDataRow : List String :=
  ["ТН5", "Petr", "", ""] ++ List.replicate 114 "" ++ ["January"]

/-- Rows whose only data row is for January. -/
def c3_rows : List (List String) := [[], [], janDataRow]

set_option maxRecDepth 8000 in
/-- Claim C3 (code bug): for the range 2024-11-01 .. 2025-03-15 the
needed-months loop stops at December of 2024 and only the endpoint
months are patched back in, so the set is `{11, 12, 3}`: January lies
inside the range (witnessed by 2025-01-15) and in the spec covered-months
set, yet a January tabell row is dropped by `fetch_tabell`. -/
theorem c3_year_boundary_months_dropped :
    neededMonths ⟨2024, 11, 1⟩ ⟨2025, 3, 15⟩ = {11, 12, 3} ∧
    1 ∉ neededMonths ⟨2024, 11, 1⟩ ⟨2025, 3, 15⟩ ∧
    1 ∈ coveredMonths ⟨2024, 11, 1⟩ ⟨2025, 3, 15⟩ ∧
    dateLe ⟨2024, 11, 1⟩ ⟨2025, 1, 15⟩ ∧ dateLe ⟨2025, 1, 15⟩ ⟨2025, 3, 15⟩ ∧
    fetch_tabell c3_rows ⟨2024, 11, 1⟩ ⟨2025, 3, 15⟩ = [] := by decide

end SheetsReader

namespace Comparator

/-- A `datetime` as the comparator sees it: a date plus seconds of day. -/
structure DateTime where
  date : Date
  sec : ℕ
deriving DecidableEq, Repr

/-- `t.hour`. -/
def DateTime.hour (t : DateTime) : ℕ := t.sec / 3600

/-- `app/models.py`: `Shift`, with calendar dates for the comparator. -/
structure Shift where
  employee_id : String
  shift_type : ShiftType
  attributed_date : Date
  start_punch : DateTime
  end_punch : Option DateTime
  hours : ℚ
deriving DecidableEq, Repr

/-- Gregorian leap year. -/
def isLeap (y : ℤ) : Bool :=
  decide (y % 4 = 0 ∧ (y % 100 ≠ 0 ∨ y % 400 = 0))

/-- Days in a month. -/
def daysInMonth (y : ℤ) (m : ℕ) : ℕ :=
  if m = 2 then (if isLeap y then 29 else 28)
  else if m = 4 ∨ m = 6 ∨ m = 9 ∨ m = 11 then 30
  else 31

/-- `current + timedelta(days=1)` on valid dates. -/
def nextDay (d : Date) : Date :=
  if d.d < daysInMonth d.y d.m then ⟨d.y, d.m, d.d + 1⟩
  else if d.m < 12 then ⟨d.y, d.m + 1, 1⟩
  else ⟨d.y + 1, 1, 1⟩

/-- The date-list loop of `compare`; the loop runs while `cur ≤ dto`,
and the fuel at the call site bounds its iteration count. -/
def dateRangeGo (dto : Date) : ℕ → Date → List Date
  | 0, _ => []
  | fuel + 1, cur => if dateLe cur dto then cur :: dateRangeGo dto fuel (nextDay cur) else []

/-- `dates = [date_from .. date_to]` inclusive; 366 days per calendar
year spanned always exceeds the number of loop iterations. -/
def dateRange (date_from date_to : Date) : List Date :=
  dateRangeGo date_to (((date_to.y + 1 - date_from.y).toNat + 1) * 366 + 2) date_from

/-- Two-digit zero padding. -/
def pad2 (n : ℕ) : String := if n < 10 then "0" ++ toString n else toString n

/-- Four-digit zero padding of a year. -/
def pad4 (y : ℤ) : String :=
  if y < 0 then toString y
  else if y < 10 then "000" ++ toString y
  else if y < 100 then "00" ++ toString y
  else if y < 1000 then "0" ++ toString y
  else toString y

/-- `d.isoformat()`. -/
def isoDate (d : Date) : String := pad4 d.y ++ "-" ++ pad2 d.m ++ "-" ++ pad2 d.d

/-- `strftime('%Y-%m-%d %H:%M:%S')`. -/
def fmtDateTime (t : DateTime) : String :=
  isoDate t.date ++ " " ++ pad2 (t.sec / 3600) ++ ":" ++ pad2 (t.sec % 3600 / 60) ++
    ":" ++ pad2 (t.sec % 60)

/-- `MONTH_MAP` of `app/services/comparator.py` with the `.get(month, 0)`
default. -/
def MONTH_MAP (s : String) : ℕ :=
  if s = "January" then 1
  else if s = "February" then 2
  else if s = "March" then 3
  else if s = "April" then 4
  else if s = "May" then 5
  else if s = "June" then 6
  else if s = "July" then 7
  else if s = "August" then 8
  else if s = "September" then 9
  else if s = "October" then 10
  else if s = "November" then 11
  else if s = "December" then 12
  else 0

/-- `entry.daily_hours.get(day, 0.0)`. -/
def lookupDay : List (ℕ × ℚ) → ℕ → ℚ
  | [], _ => 0
  | (k, v) :: r, day => if k = day then v else lookupDay r day

/-- `_get_tabell_hours`: the first entry whose month number matches the
month of the date, defaulting to zero. -/
def get_tabell_hours : List TabellEntry → Date → ℚ
  | [], _ => 0
  | e :: es, d => if MONTH_MAP e.month = d.m then lookupDay e.daily_hours d.d else get_tabell_hours es d

/-- `_estimate_shift_type`. -/
def estimate_shift_type (hour : ℕ) : String :=
  if 4 ≤ hour ∧ hour ≤ 10 then "day_start?"
  else if 14 ≤ hour ∧ hour ≤ 20 then "day_end?"
  else if 15 ≤ hour ∧ hour ≤ 23 then "night_start?"
  else if hour ≤ 4 then "night_end?"
  else "unknown"

/-- The shift list of one employee in `shifts_by_employee` (a Python
dict; absent key gives no shifts). -/
def lookupEmp (sbe : List (String × List Shift)) (e : String) : List Shift :=
  match sbe.find? (fun pr => pr.1 == e) with
  | some pr => pr.2
  | none => []

/-- `skud_hours[emp][d]`: the accumulated hours of the shifts of `emp`
attributed to `d` (zero when none). -/
def skudHoursOf (sbe : List (String × List Shift)) (e : String) (d : Date) : ℚ :=
  ((lookupEmp sbe e).filter (fun s => decide (s.attributed_date = d))).foldl
    (fun acc s => qAdd acc s.hours) 0

/-- `skud_shift_types[emp][d]`: the type of the last shift written for
that date, as its string value. -/
def skudTypeOf (sbe : List (String × List Shift)) (e : String) (d : Date) : Option String :=
  match ((lookupEmp sbe e).filter (fun s => decide (s.attributed_date = d))).getLast? with
  | some s => some s.shift_type.value
  | none => none

/-- `broken_dates[emp][d]`. -/
def brokenFlagOf (broken : List Shift) (e : String) (d : Date) : Bool :=
  broken.any (fun s => decide (s.employee_id = e) && decide (s.attributed_date = d))

/-- One per-day cell of the output. -/
structure DayCell where
  tabell : ℚ
  skud : ℚ
  diff : ℚ
  broken : Bool
  shift_type : Option String
deriving DecidableEq, Repr

/-- One per-employee row of the output. -/
structure ComparisonRow where
  employee_id : String
  name : String
  job_title : String
  days : List (String × DayCell)
deriving DecidableEq, Repr

/-- One serialized broken shift. -/
structure BrokenOut where
  employee_id : String
  name : String
  attributed_date : String
  punch_time : String
  estimated_type : String
deriving DecidableEq, Repr

/-- The summary block of the output. -/
structure Summary where
  total_employees_tabell : ℕ
  total_employees_skud : ℕ
  matched_employees : ℕ
  broken_count : ℕ
  date_range : List String
deriving DecidableEq, Repr

/-- The full result of `compare`. -/
structure CompareResult where
  comparison : List ComparisonRow
  broken_shifts : List BrokenOut
  summary : Summary
deriving DecidableEq, Repr

/-- Code-point lexicographic strict order on strings (Python `<`). -/
def strLtB : List Char → List Char → Bool
  | [], [] => false
  | [], _ :: _ => true
  | _ :: _, [] => false
  | a :: as, b :: bs =>
    if a.toNat < b.toNat then true
    else if b.toNat < a.toNat then false
    else strLtB as bs

/-- Code-point lexicographic order on strings (Python `<=`). -/
def strLeB : List Char → List Char → Bool
  | [], _ => true
  | _ :: _, [] => false
  | a :: as, b :: bs =>
    if a.toNat < b.toNat then true
    else if b.toNat < a.toNat then false
    else strLeB as bs

/-- Stable insertion for `sorted(ids)`. -/
def insertStr (x : String) : List String → List String
  | [] => [x]
  | y :: ys => if strLeB y.data x.data then y :: insertStr x ys else x :: y :: ys

/-- Python `sorted` on strings (stable). -/
def sortStrings (l : List String) : List String := l.foldl (fun acc x => insertStr x acc) []

/-- The sort key `(employee_id, attributed_date)` of broken shifts. -/
def brokenKeyLe (a b : Shift) : Bool :=
  strLtB a.employee_id.data b.employee_id.data ||
    (a.employee_id == b.employee_id && decide (dateLe a.attributed_date b.attributed_date))

/-- Stable insertion for `sorted(broken_shifts, key=...)`. -/
def insertBroken (x : Shift) : List Shift → List Shift
  | [] => [x]
  | y :: ys => if brokenKeyLe y x then y :: insertBroken x ys else x :: y :: ys

/-- Python `sorted` of broken shifts (stable). -/
def sortBroken (l : List Shift) : List Shift := l.foldl (fun acc x => insertBroken x acc) []

/-- The distinct tabell employee ids, in first-occurrence order (the key
order of `tabell_by_emp`). -/
def tabellKeys (entries : List TabellEntry) : List String :=
  entries.foldl (fun acc e => if e.employee_id ∈ acc then acc else acc ++ [e.employee_id]) []

/-- `compare` from `app/services/comparator.py`. -/
def compare (shifts_by_employee : List (String × List Shift)) (broken_shifts : List Shift)
    (tabell_entries : List TabellEntry) (date_from date_to : Date) : CompareResult :=
  let dates := dateRange date_from date_to
  let all_emp_ids := sortStrings (tabellKeys tabell_entries)
  let comparison := all_emp_ids.map (fun emp =>
    let entries := tabell_entries.filter (fun e => decide (e.employee_id = emp))
    let name := match entries with | [] => "" | e :: _ => e.name
    let job_title := match entries with | [] => "" | e :: _ => e.job_title
    let days := dates.map (fun d =>
      let tabell_h := get_tabell_hours entries d
      let skud_h := skudHoursOf shifts_by_employee emp d
      ((isoDate d,
        { tabell := tabell_h, skud := roundTo1 skud_h, diff := roundTo1 (qSub tabell_h skud_h),
          broken := brokenFlagOf broken_shifts emp d,
          shift_type := skudTypeOf shifts_by_employee emp d }) : String × DayCell))
    ({ employee_id := emp, name := name, job_title := job_title, days := days } : ComparisonRow))
  let broken_out := (sortBroken broken_shifts).map (fun s =>
    let name :=
      match tabell_entries.filter (fun e => decide (e.employee_id = s.employee_id)) with
      | [] => ""
      | e :: _ => e.name
    ({ employee_id := s.employee_id, name := name,
       attributed_date := isoDate s.attributed_date,
       punch_time := fmtDateTime s.start_punch,
       estimated_type := estimate_shift_type s.start_punch.hour } : BrokenOut))
  let matched := (all_emp_ids.filter (fun e =>
    shifts_by_employee.any (fun pr => pr.1 == e && !pr.2.isEmpty))).length
  { comparison := comparison,
    broken_shifts := broken_out,
    summary := {
      total_employees_tabell := all_emp_ids.length,
      total_employees_skud := shifts_by_employee.length +
        ((broken_shifts.map (fun s => s.employee_id)).dedup).length,
      matched_employees := matched,
      broken_count := broken_shifts.length,
      date_range := [isoDate date_from, isoDate date_to] } }

end Comparator

namespace Comparator

/-- A member of `lookupEmp sbe e` is a shift of some entry of `sbe`. -/
theorem lookupEmp_subset {sbe : List (String × List Shift)} {e : String} {s : Shift}
    (hs : s ∈ lookupEmp sbe e) : ∃ pr ∈ sbe, s ∈ pr.2 := by
  unfold lookupEmp at hs
  cases hfind : sbe.find? (fun pr => pr.1 == e) with
  | none =>
    rw [hfind] at hs
    simp at hs
  | some pr =>
    rw [hfind] at hs
    exact ⟨pr, List.mem_of_find?_eq_some hfind, hs⟩

/-- A fold of `qAdd` over one-decimal hours from a one-decimal start is
one-decimal. -/
theorem foldl_qAdd_one_decimal (l : List Shift)
    (h : ∀ s ∈ l, ∃ k : ℤ, s.hours = Rat.divInt k 10) :
    ∀ init : ℚ, (∃ k0 : ℤ, init = Rat.divInt k0 10) →
      ∃ k : ℤ, l.foldl (fun acc s => qAdd acc s.hours) init = Rat.divInt k 10 := by
  induction l with
  | nil =>
    intro init h0
    simpa using h0
  | cons s rest ih =>
    intro init h0
    obtain ⟨k0, hk0⟩ := h0
    obtain ⟨k1, hk1⟩ := h s (List.mem_cons_self s rest)
    refine ih (fun x hx => h x (List.mem_cons_of_mem _ hx)) (qAdd init s.hours) ⟨k0 + k1, ?_⟩
    rw [qAdd_eq, hk0, hk1, Rat.divInt_eq_div, Rat.divInt_eq_div, Rat.divInt_eq_div]
    push_cast
    ring

/-- The per-day skud sum is a one-decimal rational whenever every shift
carries one-decimal hours. -/
theorem skudHoursOf_one_decimal (sbe : List (String × List Shift)) (e : String) (d : Date)
    (hdec : ∀ pr ∈ sbe, ∀ s ∈ pr.2, ∃ k : ℤ, s.hours = Rat.divInt k 10) :
    ∃ k : ℤ, skudHoursOf sbe e d = Rat.divInt k 10 := by
  unfold skudHoursOf
  apply foldl_qAdd_one_decimal
  · intro s hs
    obtain ⟨pr, hpr, hs2⟩ := lookupEmp_subset (List.mem_of_mem_filter hs)
    exact hdec pr hpr s hs2
  · exact ⟨0, by decide⟩

/-- Claim C7: in every per-day cell of `compare`, under the data-model
invariant that every shift carries one-decimal hours (the detector rounds
every `hours` field to one decimal), the `diff` field equals
`round(tabell - skud, 1)` computed from the fields of the cell itself. -/
theorem c7_diff_formula (sbe : List (String × List Shift)) (broken : List Shift)
    (tabell : List TabellEntry) (dfrom dto : Date)
    (hdec : ∀ pr ∈ sbe, ∀ s ∈ pr.2, ∃ k : ℤ, s.hours = Rat.divInt k 10) :
    ∀ row ∈ (compare sbe broken tabell dfrom dto).comparison,
      ∀ cell ∈ row.days, cell.2.diff = roundTo1 (cell.2.tabell - cell.2.skud) := by
  intro row hrow cell hcell
  simp only [compare] at hrow
  rw [List.mem_map] at hrow
  obtain ⟨emp, hemp, hroweq⟩ := hrow
  subst hroweq
  dsimp only at hcell
  rw [List.mem_map] at hcell
  obtain ⟨d, hd, hcelleq⟩ := hcell
  subst hcelleq
  dsimp only
  obtain ⟨k, hk⟩ := skudHoursOf_one_decimal sbe emp d hdec
  rw [qSub_eq, hk, roundTo1_divInt_ten]

def c4_shift : Shift :=
  ⟨"1", ShiftType.DAY, ⟨2025, 3, 10⟩, ⟨⟨2025, 3, 10⟩, 6 * 3600⟩,
   some ⟨⟨2025, 3, 10⟩, 16 * 3600⟩, 10⟩

def c4_broken : Shift :=
  ⟨"1", ShiftType.BROKEN, ⟨2025, 3, 11⟩, ⟨⟨2025, 3, 11⟩, 5 * 3600⟩, none, 0⟩

/-- Claim C4 counterexample: employee `1` owns both a valid shift and a
broken shift; the summary counts it twice (`total_employees_skud = 2`),
not once as the claimed union count (1) would. -/
theorem c4_claim_false :
    (compare [("1", [c4_shift])] [c4_broken] [] ⟨2025, 3, 10⟩ ⟨2025, 3, 11⟩).summary.total_employees_skud ≠
      (([("1", [c4_shift])].map Prod.fst).toFinset ∪
        ([c4_broken].map (fun s => s.employee_id)).toFinset).card := by decide

/-- Claim C4 as amended: `total_employees_skud` is the key count of
`shifts_by_employee` plus the distinct broken-shift employee count, i.e.
the size of the union plus the size of the intersection — an employee
with both a valid and a broken shift is counted twice. -/
theorem c4_total_skud_formula (sbe : List (String × List Shift)) (broken : List Shift)
    (tabell : List TabellEntry) (dfrom dto : Date)
    (hkeys : (sbe.map Prod.fst).Nodup) :
    (compare sbe broken tabell dfrom dto).summary.total_employees_skud =
      ((sbe.map Prod.fst).toFinset ∪ (broken.map (fun s => s.employee_id)).toFinset).card +
      ((sbe.map Prod.fst).toFinset ∩ (broken.map (fun s => s.employee_id)).toFinset).card := by
  have h0 : (compare sbe broken tabell dfrom dto).summary.total_employees_skud =
      sbe.length + ((broken.map (fun s => s.employee_id)).dedup).length := rfl
  have hs : (sbe.map Prod.fst).toFinset.card = sbe.length := by
    rw [List.toFinset_card_of_nodup hkeys, List.length_map]
  have hb : (broken.map (fun s => s.employee_id)).toFinset.card =
      ((broken.map (fun s => s.employee_id)).dedup).length := List.card_toFinset _
  have hu := Finset.card_union_add_card_inter
    ((sbe.map Prod.fst).toFinset) ((broken.map (fun s => s.employee_id)).toFinset)
  omega

/-- Witness for C4 at the two-shift input of the counterexample. -/
theorem c4_total_skud_formula_witness :
    (compare [("1", [c4_shift])] [c4_broken] [] ⟨2025, 3, 10⟩ ⟨2025, 3, 11⟩).summary.total_employees_skud =
      (([("1", [c4_shift])].map Prod.fst).toFinset ∪
        ([c4_broken].map (fun s => s.employee_id)).toFinset).card +
      (([("1", [c4_shift])].map Prod.fst).toFinset ∩
        ([c4_broken].map (fun s => s.employee_id)).toFinset).card :=
  c4_total_skud_formula [("1", [c4_shift])] [c4_broken] [] ⟨2025, 3, 10⟩ ⟨2025, 3, 11⟩ (by decide)

def c7_sbe : List (String × List Shift) := [("1", [c4_shift])]

def c7_tabell : TabellEntry := ⟨"1", "Ann", "", "", "March", [(10, 8)], ""⟩

def c7_cell : String × DayCell := ("2025-03-10", ⟨8, 10, Rat.divInt (-2) 1, false, some "day"⟩)

def c7_row : ComparisonRow := ⟨"1", "Ann", "", [c7_cell]⟩

/-- Witness for C7 at a concrete one-day comparison. -/
theorem c7_diff_formula_witness :
    c7_cell.2.diff = roundTo1 (c7_cell.2.tabell - c7_cell.2.skud) :=
  c7_diff_formula c7_sbe [] [c7_tabell] ⟨2025, 3, 10⟩ ⟨2025, 3, 10⟩
    (by
      intro pr hpr s hs
      simp only [c7_sbe, List.mem_singleton] at hpr
      subst hpr
      simp only [List.mem_singleton] at hs
      subst hs
      exact ⟨100, by decide⟩)
    c7_row (by decide) c7_cell (by decide)

end Comparator
